import Mathlib

/-!
Shallow embedding of `src/main.py` (namecheap-dns), the reconciliation
tool for Namecheap DNS host records.

Python dictionaries are modelled as insertion-ordered association lists
with unique keys (the invariant Python dicts maintain).  A record value
coming from the provider's XML is always a string; a value coming from
the YAML desired-state document may be a string or an integer, so record
values are modelled by the sum type `Val`.

A Python statement that can raise (`d.pop(k)` or `d[k]` on a missing
key) is modelled by `Option`: `none` is an uncaught exception aborting
the run.
-/

namespace NamecheapDNS

/-- A scalar value held in a record mapping: YAML/JSON string or integer. -/
inductive Val where
  | vstr : String → Val
  | vint : Int → Val
deriving DecidableEq, Repr

/-- A raw record: a Python dict, i.e. an insertion-ordered association
list of string keys and scalar values. -/
abbrev Rec := List (String × Val)

/-- Python `d.get(k)` / `d[k]` lookup (first binding of the key). -/
def dictFind? {κ ν : Type} [DecidableEq κ] (d : List (κ × ν)) (k : κ) : Option ν :=
  (d.find? (fun p => decide (p.1 = k))).map (fun p => p.2)

/-- Python `d.pop(k, None)`: remove the binding of `k` (no-op when absent). -/
def dictPop {κ ν : Type} [DecidableEq κ] (d : List (κ × ν)) (k : κ) : List (κ × ν) :=
  d.filter (fun p => decide (p.1 ≠ k))

/-- Python `d[k] = v`: replace the value at `k` keeping its position, or
append a fresh binding at the end when `k` is absent. -/
def dictInsert {κ ν : Type} [DecidableEq κ] (d : List (κ × ν)) (k : κ) (v : ν) :
    List (κ × ν) :=
  match d with
  | [] => [(k, v)]
  | p :: t => if p.1 = k then (k, v) :: t else p :: dictInsert t k v

/-- JSON string escaping for one character (quote and backslash; other
characters of the records at hand need no escaping). -/
def escChar (c : Char) : List Char :=
  if c = '"' ∨ c = '\\' then ['\\', c] else [c]

/-- A JSON string literal with its surrounding quotes. -/
def json_str (s : String) : String :=
  "\"" ++ String.mk (s.data.flatMap escChar) ++ "\""

/-- JSON rendering of a scalar value. -/
def Val.json : Val → String
  | .vstr s => json_str s
  | .vint n => toString n

/-- Python's `<` on strings: lexicographic comparison of code points. -/
def charListLt : List Char → List Char → Bool
  | [], [] => false
  | [], _ :: _ => true
  | _ :: _, [] => false
  | a :: as, b :: bs =>
    if a.toNat < b.toNat then true
    else if b.toNat < a.toNat then false
    else charListLt as bs

/-- Python's `<=` on strings. -/
def charListLe : List Char → List Char → Bool
  | [], _ => true
  | _ :: _, [] => false
  | a :: as, b :: bs =>
    if a.toNat < b.toNat then true
    else if b.toNat < a.toNat then false
    else charListLe as bs

/-- Python string `<`. -/
def strLt (a b : String) : Bool := charListLt a.data b.data

/-- Python string `<=`. -/
def strLe (a b : String) : Bool := charListLe a.data b.data

/-- Key-sorted view of a record, as produced by `sort_keys=True`.  A stable
sort by key; stable sorting under a fixed total preorder has a unique
result, so insertion sort models Python's sort exactly here. -/
def sortKeys (d : Rec) : Rec :=
  d.insertionSort (fun a b => strLe a.1 b.1 = true)

/-- Python `json.dumps(d, sort_keys=True)` with the default separators
`", "` and `": "`. -/
def json_dumps (d : Rec) : String :=
  "\x7b" ++ String.intercalate ", "
    ((sortKeys d).map (fun p => json_str p.1 ++ ": " ++ p.2.json)) ++ "\x7d"

/-- The identity tuple `(type_, name, json.dumps(d, sort_keys=True))`
returned by `dict_hash`.  `recordType` and `hostName` keep the dynamic
type of the popped dictionary values. -/
structure Identity where
  recordType : Val
  hostName : Val
  attrsJson : String
deriving DecidableEq, Repr

/-- `dict_hash` from `src/main.py`: pop `HostName` and `RecordType` from a
copy of the record (a `KeyError` on a missing key is `none`) and pair them
with the key-sorted JSON serialization of the remaining attributes. -/
def dict_hash (d : Rec) : Option Identity := do
  let name ← dictFind? d "HostName"
  let rtype ← dictFind? d "RecordType"
  pure ⟨rtype, name, json_dumps (dictPop (dictPop d "HostName") "RecordType")⟩

/-- The body of the per-record loop in `get_records`: strips the
provider-only bookkeeping fields, renames `Name` to `HostName` and `Type`
to `RecordType`, drops `MXPref` on non-MX records, and drops `TTL` when it
equals the provider default string `"1800"`.  The mandatory reads
(`record.pop("Name")`, `record["Type"]`, `record["TTL"]`) raise `KeyError`
on a missing key, modelled by `none`. -/
def normalize_record (record : Rec) : Option Rec := do
  let record := dictPop record "AssociatedAppTitle"
  let record := dictPop record "FriendlyName"
  let record := dictPop record "HostId"
  let name ← dictFind? record "Name"
  let record := dictInsert (dictPop record "Name") "HostName" name
  let record := dictPop record "IsActive"
  let record := dictPop record "IsDDNSEnabled"
  let rtype ← dictFind? record "Type"
  let record := if rtype ≠ Val.vstr "MX" then dictPop record "MXPref" else record
  let record := dictInsert (dictPop record "Type") "RecordType" rtype
  let ttl ← dictFind? record "TTL"
  let record := if ttl = Val.vstr "1800" then dictPop record "TTL" else record
  pure record

/-- `get_records` after the network fetch and XML extraction: the loop
normalizing every host element's attribute dictionary.  The argument is
the list `records = [dict(h.attrib) for h in host_elements]`; every value
in such a dictionary is a string. -/
def get_records (host_records : List Rec) : Option (List Rec) :=
  host_records.mapM normalize_record

/-- A record collection: the Python dict mapping `dict_hash(r)` to `r`,
kept in insertion order. -/
abbrev Coll := List (Identity × Rec)

/-- The dict comprehension `{dict_hash(r): r for r in recs}` shared by
`get_new` and `get_current`: later records overwrite earlier ones with the
same identity; a `KeyError` raised by `dict_hash` on any record aborts
(`none`).  `collStep` is one step of the comprehension (the `none` branch
is unreachable under the guard). -/
def collStep (c : Coll) (r : Rec) : Coll :=
  match dict_hash r with
  | some i => dictInsert c i r
  | none => c

/-- See `collStep`: the guarded comprehension itself. -/
def records_to_coll (recs : List Rec) : Option Coll :=
  if recs.all (fun r => (dict_hash r).isSome) then
    some (recs.foldl collStep [])
  else none

/-- `get_new` from `src/main.py`, applied to the already-parsed YAML
document (a list of record mappings). -/
def get_new (new_records : List Rec) : Option Coll :=
  records_to_coll new_records

/-- `get_current` from `src/main.py`, applied to the raw host dictionaries
the provider returned. -/
def get_current (host_records : List Rec) : Option Coll :=
  (get_records host_records).bind records_to_coll

/-- Python `k in d` membership test on a dict. -/
def hasKey {κ ν : Type} [DecidableEq κ] (d : List (κ × ν)) (k : κ) : Bool :=
  d.any (fun p => decide (p.1 = k))

/-- `remove_unused_records`: walks `current`, flags (prints) every record
whose identity is absent from `new`, and returns the flagged records
together with the `changed` boolean the source returns. -/
def remove_unused_records (current new : Coll) : List Rec × Bool :=
  current.foldl
    (fun acc p => if hasKey new p.1 then acc else (acc.1 ++ [p.2], true))
    ([], false)

/-- `add_new_records`: walks `new`, flags (prints) every record whose
identity is absent from `current`, and returns the flagged records
together with the `changed` boolean the source returns. -/
def add_new_records (current new : Coll) : List Rec × Bool :=
  new.foldl
    (fun acc p => if hasKey current p.1 then acc else (acc.1 ++ [p.2], true))
    ([], false)

/-- The flattened `setHosts` payload entries: for
`num, record in zip(count(1), new.values())` every `key, value` item of
`record` becomes the entry `(f"{key}{num}", value)`. -/
def plan_entries (records : List Rec) : List (String × Val) :=
  (records.enumFrom 1).flatMap
    (fun p => p.2.map (fun kv => (kv.1 ++ toString p.1, kv.2)))

/-- The initial `data` dictionary of `do_import` before the host entries
are added. -/
def base_data (sld tld : String) : Rec :=
  [("Command", Val.vstr "namecheap.domains.dns.setHosts"),
   ("SLD", Val.vstr sld), ("TLD", Val.vstr tld)]

/-- The complete `data` dictionary submitted by `do_import`: the host
entries assigned one by one into the base dictionary. -/
def build_data (sld tld : String) (new : Coll) : Rec :=
  (plan_entries (new.map (fun p => p.2))).foldl
    (fun d kv => dictInsert d kv.1 kv.2) (base_data sld tld)

/-- The observable outcome of one `do_import` run: the records flagged for
removal and addition (the `print` calls), and the payload of the single
`setHosts` write request, or `none` when no write call is made. -/
structure ImportResult where
  removed : List Rec
  added : List Rec
  submission : Option Rec
deriving DecidableEq, Repr

/-- `do_import` from `src/main.py`, starting after `get_current`/`get_new`
have produced the two collections: computes both diff flags, returns early
when `not updated_removed or not updated_added`, otherwise builds `data`
and submits it unless `--dryrun` was given. -/
def do_import (dryrun : Bool) (sld tld : String) (current new : Coll) :
    ImportResult :=
  let rm := remove_unused_records current new
  let ad := add_new_records current new
  if !rm.2 || !ad.2 then ⟨rm.1, ad.1, none⟩
  else ⟨rm.1, ad.1, if !dryrun then some (build_data sld tld new) else none⟩

/-- Python `<` on two scalar values.  Comparing a string with an integer
raises `TypeError` in Python 3; the `false` returned here is never
exercised, since provider records carry only string values. -/
def Val.ltb : Val → Val → Bool
  | .vstr a, .vstr b => strLt a b
  | .vint a, .vint b => decide (a < b)
  | _, _ => false

/-- Python's lexicographic comparison of two `dict_hash` tuples, as used
by `sorted(records, key=dict_hash)`. -/
def Identity.leb (x y : Identity) : Bool :=
  if x.recordType.ltb y.recordType then true
  else if y.recordType.ltb x.recordType then false
  else if x.hostName.ltb y.hostName then true
  else if y.hostName.ltb x.hostName then false
  else strLe x.attrsJson y.attrsJson

/-- Comparison of two records by their `dict_hash` key; the `true` on the
error branch is unreachable under the `isSome` guard of `do_export`. -/
def hashLeb (a b : Rec) : Bool :=
  match dict_hash a, dict_hash b with
  | some x, some y => x.leb y
  | _, _ => true

/-- `do_export` after the fetch: `sorted(records, key=dict_hash)` (the
YAML serialization to the output file is the identity on the record list,
as `yaml.safe_load` inverts `yaml.dump`).  A `KeyError` from `dict_hash`
is `none`; stable sorting under a fixed key has a unique result, so
insertion sort models Python's stable sort exactly. -/
def do_export (records : List Rec) : Option (List Rec) :=
  if records.all (fun r => (dict_hash r).isSome) then
    some (records.insertionSort (fun a b => hashLeb a b = true))
  else none

section SampleRecords

/-- A canonical desired-state record used in concrete instances. -/
def rec_www : Rec :=
  [("HostName", .vstr "www"), ("RecordType", .vstr "A"),
   ("Address", .vstr "1.2.3.4")]

/-- The identity of `rec_www`. -/
def id_www : Identity :=
  ⟨.vstr "A", .vstr "www", "\x7b\"Address\": \"1.2.3.4\"\x7d"⟩

/-- A desired-state record with attributes `Address` and `TTL`. -/
def rec_dup_a : Rec :=
  [("HostName", .vstr "www"), ("RecordType", .vstr "A"),
   ("Address", .vstr "1.2.3.4"), ("TTL", .vint 300)]

/-- A record distinct from `rec_dup_a` as a document entry (different key
order) yet carrying the same mapping, hence the same canonical identity. -/
def rec_dup_b : Rec :=
  [("TTL", .vint 300), ("Address", .vstr "1.2.3.4"),
   ("HostName", .vstr "www"), ("RecordType", .vstr "A")]

/-- The common identity of `rec_dup_a` and `rec_dup_b`. -/
def id_dup : Identity :=
  ⟨.vstr "A", .vstr "www", "\x7b\"Address\": \"1.2.3.4\", \"TTL\": 300\x7d"⟩

/-- A desired record whose identity sorts first. -/
def rec_alpha : Rec :=
  [("HostName", .vstr "alpha"), ("RecordType", .vstr "A"),
   ("Address", .vstr "1.1.1.1")]

/-- A desired record whose identity sorts after `rec_alpha`. -/
def rec_beta : Rec :=
  [("HostName", .vstr "beta"), ("RecordType", .vstr "A"),
   ("Address", .vstr "2.2.2.2")]

/-- The identity of `rec_alpha`. -/
def id_alpha : Identity :=
  ⟨.vstr "A", .vstr "alpha", "\x7b\"Address\": \"1.1.1.1\"\x7d"⟩

/-- The identity of `rec_beta`. -/
def id_beta : Identity :=
  ⟨.vstr "A", .vstr "beta", "\x7b\"Address\": \"2.2.2.2\"\x7d"⟩

/-- A desired-state record otherwise identical to `rec_www` but with the
YAML field `TTL: 1800` (an integer in the parsed document). -/
def rec_ttl1800 : Rec :=
  [("HostName", .vstr "www"), ("RecordType", .vstr "A"),
   ("Address", .vstr "1.2.3.4"), ("TTL", .vint 1800)]

/-- A desired-state non-MX record carrying a stray `MXPref` field,
otherwise identical to `rec_www`. -/
def rec_stray : Rec :=
  [("HostName", .vstr "www"), ("RecordType", .vstr "A"),
   ("Address", .vstr "1.2.3.4"), ("MXPref", .vint 10)]

/-- A provider host dictionary (all values strings) with the default TTL. -/
def prov_1800 : Rec :=
  [("Name", .vstr "www"), ("Type", .vstr "A"),
   ("Address", .vstr "1.2.3.4"), ("TTL", .vstr "1800")]

/-- A provider host dictionary with the non-default TTL `"3600"`. -/
def prov_3600 : Rec :=
  [("Name", .vstr "www"), ("Type", .vstr "A"),
   ("Address", .vstr "1.2.3.4"), ("TTL", .vstr "3600")]

/-- A provider non-MX host dictionary carrying a stray `MXPref`. -/
def prov_stray : Rec :=
  [("Name", .vstr "www"), ("Type", .vstr "A"),
   ("Address", .vstr "1.2.3.4"), ("MXPref", .vstr "10"),
   ("TTL", .vstr "1800")]

/-- A provider MX host dictionary with preference 10. -/
def prov_mx10 : Rec :=
  [("Name", .vstr "mail"), ("Type", .vstr "MX"),
   ("Address", .vstr "mx.example.com"), ("MXPref", .vstr "10"),
   ("TTL", .vstr "1800")]

/-- A provider MX host dictionary with preference 20. -/
def prov_mx20 : Rec :=
  [("Name", .vstr "mail"), ("Type", .vstr "MX"),
   ("Address", .vstr "mx.example.com"), ("MXPref", .vstr "20"),
   ("TTL", .vstr "1800")]

/-- The normalization of `prov_1800` (TTL elided). -/
def norm_www : Rec :=
  [("Address", .vstr "1.2.3.4"), ("HostName", .vstr "www"),
   ("RecordType", .vstr "A")]

/-- The normalization of `prov_3600` (TTL kept). -/
def norm_3600 : Rec :=
  [("Address", .vstr "1.2.3.4"), ("TTL", .vstr "3600"),
   ("HostName", .vstr "www"), ("RecordType", .vstr "A")]

/-- The normalization of `prov_mx10` (MXPref kept). -/
def norm_mx10 : Rec :=
  [("Address", .vstr "mx.example.com"), ("MXPref", .vstr "10"),
   ("HostName", .vstr "mail"), ("RecordType", .vstr "MX")]

/-- The normalization of `prov_mx20` (MXPref kept). -/
def norm_mx20 : Rec :=
  [("Address", .vstr "mx.example.com"), ("MXPref", .vstr "20"),
   ("HostName", .vstr "mail"), ("RecordType", .vstr "MX")]

end SampleRecords

example : dict_hash rec_www = some id_www := by decide

example :
    normalize_record
      [("Name", .vstr "www"), ("Type", .vstr "A"),
       ("Address", .vstr "1.2.3.4"), ("MXPref", .vstr "10"),
       ("TTL", .vstr "1800"), ("HostId", .vstr "12"),
       ("IsActive", .vstr "true")] =
    some [("Address", .vstr "1.2.3.4"), ("HostName", .vstr "www"),
          ("RecordType", .vstr "A")] := by
  decide

example :
    do_import false "example" "com"
      [(⟨.vstr "A", .vstr "www", "j"⟩, [("Address", .vstr "1.2.3.4")])] [] =
    ⟨[[("Address", .vstr "1.2.3.4")]], [], none⟩ := by
  decide

section DictLemmas

variable {κ ν : Type} [DecidableEq κ]

theorem find?_pred_congr {α : Type} {p q : α → Bool} (l : List α)
    (h : ∀ a, p a = q a) : l.find? p = l.find? q := by
  induction l with
  | nil => rfl
  | cons x t ih => simp [List.find?_cons, h x, ih]

theorem dictFind?_pop (d : List (κ × ν)) (k j : κ) :
    dictFind? (dictPop d k) j = if j = k then none else dictFind? d j := by
  unfold dictFind? dictPop
  rw [List.find?_filter]
  by_cases hjk : j = k
  · subst hjk
    rw [if_pos rfl, List.find?_eq_none.mpr]
    · rfl
    · intro x _
      simp
  · rw [if_neg hjk, find?_pred_congr d (q := fun p => decide (p.1 = j))]
    intro a
    by_cases haj : a.1 = j
    · have : a.1 ≠ k := fun h => hjk (haj ▸ h)
      simp [haj, this, hjk]
    · simp [haj]

theorem dictFind?_insert (d : List (κ × ν)) (k j : κ) (v : ν) :
    dictFind? (dictInsert d k v) j = if j = k then some v else dictFind? d j := by
  induction d with
  | nil =>
    by_cases hjk : j = k
    · subst hjk
      simp [dictInsert, dictFind?, List.find?_cons]
    · have : ¬ k = j := fun h => hjk h.symm
      simp [dictInsert, dictFind?, List.find?_cons, this, hjk]
  | cons p t ih =>
    simp only [dictInsert]
    by_cases hpk : p.1 = k
    · rw [if_pos hpk]
      by_cases hjk : j = k
      · subst hjk
        simp [dictFind?, List.find?_cons]
      · have hkj : ¬ k = j := fun h => hjk h.symm
        have hpj : ¬ p.1 = j := fun h => hjk ((hpk ▸ h : k = j)).symm
        simp [dictFind?, List.find?_cons, hkj, hjk, hpj]
    · rw [if_neg hpk]
      by_cases hpj : p.1 = j
      · have hjk : ¬ j = k := fun h => hpk (hpj.symm ▸ h : p.1 = k)
        simp [dictFind?, List.find?_cons, hpj, hjk]
      · unfold dictFind? at ih ⊢
        simp only [List.find?_cons, hpj, decide_eq_true_eq, if_false]
        simpa [hpj] using ih

theorem hasKey_insert (d : List (κ × ν)) (k j : κ) (v : ν) :
    hasKey (dictInsert d k v) j = (hasKey d j || decide (j = k)) := by
  induction d with
  | nil =>
    by_cases hjk : j = k
    · subst hjk
      simp [dictInsert, hasKey]
    · have : ¬ k = j := fun h => hjk h.symm
      simp [dictInsert, hasKey, this, hjk]
  | cons p t ih =>
    simp only [dictInsert]
    by_cases hpk : p.1 = k
    · rw [if_pos hpk]
      by_cases hjk : j = k
      · subst hjk
        simp [hasKey, List.any_cons]
      · have hkj : ¬ k = j := fun h => hjk h.symm
        have hpj : ¬ p.1 = j := fun h => hjk ((hpk ▸ h : k = j)).symm
        simp [hasKey, List.any_cons, hkj, hjk, hpj]
    · rw [if_neg hpk]
      unfold hasKey at ih ⊢
      simp only [List.any_cons, ih, Bool.or_assoc]

theorem mem_dictInsert {d : List (κ × ν)} {k : κ} {v : ν} {p : κ × ν}
    (h : p ∈ dictInsert d k v) : p = (k, v) ∨ p ∈ d := by
  induction d with
  | nil => simpa [dictInsert] using h
  | cons q t ih =>
    simp only [dictInsert] at h
    by_cases hqk : q.1 = k
    · rw [if_pos hqk] at h
      rcases List.mem_cons.mp h with h | h
      · exact Or.inl h
      · exact Or.inr (List.mem_cons_of_mem _ h)
    · rw [if_neg hqk] at h
      rcases List.mem_cons.mp h with h | h
      · exact Or.inr (h ▸ List.mem_cons_self _ _)
      · rcases ih h with h | h
        · exact Or.inl h
        · exact Or.inr (List.mem_cons_of_mem _ h)

theorem keys_dictInsert (d : List (κ × ν)) (k : κ) (v : ν) :
    (dictInsert d k v).map Prod.fst =
      if hasKey d k then d.map Prod.fst else d.map Prod.fst ++ [k] := by
  induction d with
  | nil => simp [dictInsert, hasKey]
  | cons p t ih =>
    unfold hasKey at ih ⊢
    simp only [dictInsert, List.any_cons]
    by_cases hpk : p.1 = k
    · simp [hpk]
    · rw [if_neg hpk, List.map_cons, List.map_cons, ih]
      by_cases ht : (t.any fun p => decide (p.1 = k)) = true
      · simp [hpk, ht]
      · simp [hpk, ht]

theorem dictPop_comm (d : List (κ × ν)) (j k : κ) :
    dictPop (dictPop d j) k = dictPop (dictPop d k) j := by
  unfold dictPop
  rw [List.filter_filter, List.filter_filter]
  apply List.filter_congr
  intro a _
  rw [Bool.and_comm]

theorem dictPop_idem (d : List (κ × ν)) (k : κ) :
    dictPop (dictPop d k) k = dictPop d k := by
  unfold dictPop
  rw [List.filter_filter]
  apply List.filter_congr
  intro a _
  rw [Bool.and_self]

theorem dictPop_dictInsert_ne (d : List (κ × ν)) {j k : κ} (v : ν)
    (hjk : ¬ j = k) :
    dictPop (dictInsert d k v) j = dictInsert (dictPop d j) k v := by
  have hkj : ¬ k = j := fun e => hjk e.symm
  induction d with
  | nil =>
    simp [dictInsert, dictPop, List.filter_cons, hkj]
  | cons p t ih =>
    simp only [dictInsert]
    by_cases hpk : p.1 = k
    · rw [if_pos hpk]
      have hpj : ¬ p.1 = j := fun e => hkj (hpk ▸ e)
      simp [dictPop, List.filter_cons, hkj, hpj, dictInsert, hpk]
    · rw [if_neg hpk]
      by_cases hpj : p.1 = j
      · simp [dictPop, List.filter_cons, hpj, dictInsert] at ih ⊢
        rw [ih]
      · simp [dictPop, List.filter_cons, hpj, dictInsert, hpk] at ih ⊢
        rw [ih]

theorem dictInsert_of_not_hasKey {d : List (κ × ν)} {k : κ} (v : ν)
    (h : hasKey d k = false) : dictInsert d k v = d ++ [(k, v)] := by
  induction d with
  | nil => rfl
  | cons p t ih =>
    unfold hasKey at h ih
    rw [List.any_cons, Bool.or_eq_false_iff] at h
    obtain ⟨h1, h2⟩ := h
    have hpk : ¬ p.1 = k := by simpa using h1
    simp only [dictInsert, if_neg hpk]
    rw [ih h2]
    rfl

theorem foldl_dictInsert_append (l base : List (κ × ν))
    (h : ((base ++ l).map Prod.fst).Nodup) :
    l.foldl (fun d kv => dictInsert d kv.1 kv.2) base = base ++ l := by
  induction l generalizing base with
  | nil => simp
  | cons kv t ih =>
    have hnotin : hasKey base kv.1 = false := by
      cases hb : hasKey base kv.1
      · rfl
      · exfalso
        rcases List.any_eq_true.mp hb with ⟨p, hp, hpk⟩
        have hpk' : p.1 = kv.1 := of_decide_eq_true hpk
        rw [List.map_append, List.nodup_append] at h
        exact h.2.2 (List.mem_map.mpr ⟨p, hp, hpk'⟩) (by simp)
    simp only [List.foldl_cons]
    rw [dictInsert_of_not_hasKey _ hnotin, ih]
    · simp
    · rw [List.append_assoc]
      simpa using h

theorem nodupKeys_dictInsert {d : List (κ × ν)} (k : κ) (v : ν)
    (h : (d.map Prod.fst).Nodup) : ((dictInsert d k v).map Prod.fst).Nodup := by
  rw [keys_dictInsert]
  by_cases hk : hasKey d k = true
  · rw [if_pos hk]
    exact h
  · rw [if_neg hk]
    refine List.Nodup.append h (List.nodup_singleton k) ?_
    intro a ha hb
    simp only [List.mem_singleton] at hb
    subst hb
    apply hk
    rcases List.mem_map.mp ha with ⟨p, hp, hpa⟩
    unfold hasKey
    exact List.any_eq_true.mpr ⟨p, hp, by simp [hpa]⟩

end DictLemmas

section DifferLemmas

theorem flag_loop_eq (m l : Coll) (acc : List Rec × Bool) :
    l.foldl (fun acc p => if hasKey m p.1 then acc else (acc.1 ++ [p.2], true)) acc =
    (acc.1 ++ (l.filter fun p => !hasKey m p.1).map (fun p => p.2),
     acc.2 || !(l.filter fun p => !hasKey m p.1).isEmpty) := by
  induction l generalizing acc with
  | nil => simp
  | cons p t ih =>
    simp only [List.foldl_cons, List.filter_cons]
    by_cases hp : hasKey m p.1 = true
    · rw [if_pos hp, ih]
      simp [hp]
    · rw [if_neg hp, ih]
      simp [hp, List.append_assoc]

theorem remove_unused_records_eq (current new : Coll) :
    remove_unused_records current new =
    ((current.filter fun p => !hasKey new p.1).map (fun p => p.2),
     !(current.filter fun p => !hasKey new p.1).isEmpty) := by
  unfold remove_unused_records
  rw [flag_loop_eq]
  simp

theorem add_new_records_eq (current new : Coll) :
    add_new_records current new =
    ((new.filter fun p => !hasKey current p.1).map (fun p => p.2),
     !(new.filter fun p => !hasKey current p.1).isEmpty) := by
  unfold add_new_records
  rw [flag_loop_eq]
  simp

end DifferLemmas

section CollLemmas

theorem hasKey_collStep_foldl (rs : List Rec) (c : Coll) (i : Identity) :
    hasKey (rs.foldl collStep c) i = true ↔
      hasKey c i = true ∨ ∃ r ∈ rs, dict_hash r = some i := by
  induction rs generalizing c with
  | nil => simp
  | cons r t ih =>
    simp only [List.foldl_cons]
    cases hr : dict_hash r with
    | none =>
      rw [show collStep c r = c by unfold collStep; rw [hr], ih]
      constructor
      · rintro (h | ⟨r', hr', hi⟩)
        · exact Or.inl h
        · exact Or.inr ⟨r', List.mem_cons_of_mem _ hr', hi⟩
      · rintro (h | ⟨r', hr', hi⟩)
        · exact Or.inl h
        · rcases List.mem_cons.mp hr' with rfl | hr'
          · rw [hr] at hi
            cases hi
          · exact Or.inr ⟨r', hr', hi⟩
    | some j =>
      rw [show collStep c r = dictInsert c j r by unfold collStep; rw [hr], ih]
      constructor
      · rintro (h | ⟨r', hr', hi⟩)
        · rw [hasKey_insert] at h
          rcases Bool.or_eq_true_iff.mp h with h | h
          · exact Or.inl h
          · refine Or.inr ⟨r, List.mem_cons_self _ _, ?_⟩
            rw [hr, of_decide_eq_true h]
        · exact Or.inr ⟨r', List.mem_cons_of_mem _ hr', hi⟩
      · rintro (h | ⟨r', hr', hi⟩)
        · exact Or.inl (by rw [hasKey_insert, h, Bool.true_or])
        · rcases List.mem_cons.mp hr' with rfl | hr'
          · rw [hr] at hi
            injection hi with hj
            refine Or.inl ?_
            rw [hasKey_insert, hj]
            simp
          · exact Or.inr ⟨r', hr', hi⟩

theorem mem_collStep_foldl {rs : List Rec} {c : Coll} {p : Identity × Rec}
    (h : p ∈ rs.foldl collStep c) : p ∈ c ∨ ∃ r ∈ rs, dict_hash r = some p.1 := by
  induction rs generalizing c with
  | nil => exact Or.inl h
  | cons r t ih =>
    simp only [List.foldl_cons] at h
    cases hr : dict_hash r with
    | none =>
      rw [show collStep c r = c by unfold collStep; rw [hr]] at h
      rcases ih h with h | ⟨r', hr', hi⟩
      · exact Or.inl h
      · exact Or.inr ⟨r', List.mem_cons_of_mem _ hr', hi⟩
    | some j =>
      rw [show collStep c r = dictInsert c j r by unfold collStep; rw [hr]] at h
      rcases ih h with h | ⟨r', hr', hi⟩
      · rcases mem_dictInsert h with h | h
        · refine Or.inr ⟨r, List.mem_cons_self _ _, ?_⟩
          rw [hr, h]
        · exact Or.inl h
      · exact Or.inr ⟨r', List.mem_cons_of_mem _ hr', hi⟩

theorem dictFind?_collStep_foldl (rs : List Rec) (c : Coll) (i : Identity) :
    dictFind? (rs.foldl collStep c) i =
      (rs.reverse.find? (fun r => decide (dict_hash r = some i))).or
        (dictFind? c i) := by
  induction rs generalizing c with
  | nil => simp
  | cons r t ih =>
    simp only [List.foldl_cons, List.reverse_cons, List.find?_append, ih]
    cases hfind : t.reverse.find? (fun r => decide (dict_hash r = some i)) with
    | some x => rfl
    | none =>
      simp only [Option.none_or]
      cases hr : dict_hash r with
      | none =>
        rw [show collStep c r = c by unfold collStep; rw [hr]]
        have : ¬ dict_hash r = some i := by rw [hr]; intro h; cases h
        simp [List.find?_cons, this]
      | some j =>
        rw [show collStep c r = dictInsert c j r by unfold collStep; rw [hr],
            dictFind?_insert]
        by_cases hij : i = j
        · subst hij
          simp [List.find?_cons, hr]
        · have : ¬ dict_hash r = some i := by
            rw [hr]
            intro h
            injection h with h
            exact hij h.symm
          simp [List.find?_cons, this, hij]

theorem nodupKeys_collStep_foldl (rs : List Rec) (c : Coll)
    (h : (c.map Prod.fst).Nodup) : ((rs.foldl collStep c).map Prod.fst).Nodup := by
  induction rs generalizing c with
  | nil => exact h
  | cons r t ih =>
    simp only [List.foldl_cons]
    cases hr : dict_hash r with
    | none =>
      rw [show collStep c r = c by unfold collStep; rw [hr]]
      exact ih _ h
    | some j =>
      rw [show collStep c r = dictInsert c j r by unfold collStep; rw [hr]]
      exact ih _ (nodupKeys_dictInsert j r h)

theorem records_to_coll_eq {rs : List Rec} {c : Coll}
    (h : records_to_coll rs = some c) : c = rs.foldl collStep [] := by
  unfold records_to_coll at h
  by_cases hall : rs.all (fun r => (dict_hash r).isSome) = true
  · rw [if_pos hall] at h
    exact (Option.some_injective _ h).symm
  · rw [if_neg hall] at h
    cases h

theorem hasKey_records_to_coll {rs : List Rec} {c : Coll}
    (h : records_to_coll rs = some c) (i : Identity) :
    hasKey c i = true ↔ ∃ r ∈ rs, dict_hash r = some i := by
  rw [records_to_coll_eq h, hasKey_collStep_foldl]
  simp [hasKey]

theorem mem_records_to_coll {rs : List Rec} {c : Coll}
    (h : records_to_coll rs = some c) {p : Identity × Rec} (hp : p ∈ c) :
    ∃ r ∈ rs, dict_hash r = some p.1 := by
  rw [records_to_coll_eq h] at hp
  rcases mem_collStep_foldl hp with h | h
  · cases h
  · exact h

end CollLemmas

/-- C9: a reconciliation run with dryRun true never makes the submission
(write) call to the provider, regardless of the diff: `do_import` only
computes and reports the plan (`if not args.dryrun` guards the single
`setHosts` request). -/
theorem c9_dryrun_never_submits (sld tld : String) (current new : Coll) :
    (do_import true sld tld current new).submission = none := by
  unfold do_import
  by_cases h : (!(remove_unused_records current new).2
      || !(add_new_records current new).2) = true
  · rw [if_pos h]
  · rw [if_neg h]
    simp

/-- C1 is a code bug, evaluated here at the failing input: `current` holds
one record, `desired` is empty, dryRun is false.  The diff is non-empty
(the record is flagged for removal), so the claim — and the evident intent
of the code — requires the submission call to be made; but
`do_import` returns early because `if not updated_removed or not
updated_added: return` demands a removal AND an addition, so no write call
happens on any removal-only (or addition-only) diff. -/
theorem c1_removal_only_diff_not_submitted :
    remove_unused_records [(id_www, rec_www)] [] = ([rec_www], true) ∧
    add_new_records [(id_www, rec_www)] [] = ([], false) ∧
    (do_import false "example" "com" [(id_www, rec_www)] []).submission = none := by
  decide

/-- C6: the differ flags for removal exactly the records of `current`
whose identity is absent from `desired`, and for addition exactly the
records of `desired` whose identity is absent from `current`; each
`changed` boolean is true iff the corresponding difference is non-empty;
in particular `diff(current, empty)` flags every current record for
removal and `diff(empty, desired)` flags every desired record for
addition. -/
theorem c6_differ_is_set_difference (current new : Coll) :
    (remove_unused_records current new).1 =
      (current.filter fun p => !hasKey new p.1).map (fun p => p.2) ∧
    ((remove_unused_records current new).2 = true ↔
      ∃ p ∈ current, hasKey new p.1 = false) ∧
    (add_new_records current new).1 =
      (new.filter fun p => !hasKey current p.1).map (fun p => p.2) ∧
    ((add_new_records current new).2 = true ↔
      ∃ p ∈ new, hasKey current p.1 = false) ∧
    (remove_unused_records current []).1 = current.map (fun p => p.2) ∧
    (add_new_records [] new).1 = new.map (fun p => p.2) := by
  refine ⟨?_, ?_, ?_, ?_, ?_, ?_⟩
  · rw [remove_unused_records_eq]
  · rw [remove_unused_records_eq]
    simp [List.isEmpty_iff, List.filter_eq_nil_iff]
  · rw [add_new_records_eq]
  · rw [add_new_records_eq]
    simp [List.isEmpty_iff, List.filter_eq_nil_iff]
  · rw [remove_unused_records_eq]
    simp [hasKey]
  · rw [add_new_records_eq]
    simp [hasKey]

/-- C7: `diff(X, X)` yields no additions and no removals for any
collection `X`; consequently a run whose current and desired collections
have equal identity sets — in particular a second run after a successful
reconciliation with no external change — makes zero submission calls. -/
theorem c7_noop_idempotence (X current new : Coll) (dryrun : Bool)
    (sld tld : String) (h : ∀ i, hasKey current i = hasKey new i) :
    remove_unused_records X X = ([], false) ∧
    add_new_records X X = ([], false) ∧
    (do_import dryrun sld tld current new).submission = none := by
  have self_nil : ∀ Y : Coll, (Y.filter fun p => !hasKey Y p.1) = [] := by
    intro Y
    rw [List.filter_eq_nil_iff]
    intro p hp
    have : hasKey Y p.1 = true := List.any_eq_true.mpr ⟨p, hp, by simp⟩
    simp [this]
  have cur_nil : (current.filter fun p => !hasKey new p.1) = [] := by
    rw [List.filter_eq_nil_iff]
    intro p hp
    have : hasKey current p.1 = true := List.any_eq_true.mpr ⟨p, hp, by simp⟩
    rw [h p.1] at this
    simp [this]
  refine ⟨?_, ?_, ?_⟩
  · rw [remove_unused_records_eq, self_nil X]
    rfl
  · rw [add_new_records_eq, self_nil X]
    rfl
  · unfold do_import
    rw [if_pos]
    rw [remove_unused_records_eq, cur_nil]
    simp

/-- C2 counterexample: a desired document holding two distinct records
that canonicalize to the same identity loads successfully — `get_new`
returns an ordinary one-entry collection keeping the later record — and
raises no error at all (the code defines no `DuplicateIdentityError`; any
raised exception would surface as `none` here). -/
theorem c2_counterexample :
    rec_dup_a ≠ rec_dup_b ∧
    dict_hash rec_dup_a = some id_dup ∧
    dict_hash rec_dup_b = some id_dup ∧
    get_new [rec_dup_a, rec_dup_b] = some [(id_dup, rec_dup_b)] := by
  decide

/-- C2 amended: loading the desired-state document never fails because of
duplicate identities; whenever every record carries the two required
fields, `get_new` succeeds (duplicates are silently collapsed, see C10). -/
theorem c2_amended_no_duplicate_error (rs : List Rec)
    (h : ∀ r ∈ rs, (dictFind? r "HostName").isSome
        ∧ (dictFind? r "RecordType").isSome) :
    (get_new rs).isSome := by
  unfold get_new records_to_coll
  rw [if_pos]
  · rfl
  · rw [List.all_eq_true]
    intro r hr
    rcases h r hr with ⟨h1, h2⟩
    rcases Option.isSome_iff_exists.mp h1 with ⟨name, hn⟩
    rcases Option.isSome_iff_exists.mp h2 with ⟨ty, ht⟩
    unfold dict_hash
    rw [hn, ht]
    rfl

/-- Witness for the amended C2 at the duplicated document. -/
theorem c2_amended_no_duplicate_error_witness :
    (get_new [rec_dup_a, rec_dup_b]).isSome :=
  c2_amended_no_duplicate_error [rec_dup_a, rec_dup_b] (by decide)

/-- C10: when the desired document contains several records of the same
canonical identity, the loader silently keeps only the last one (later
entries overwrite earlier ones in the identity-keyed dict), the resulting
collection holds exactly one record per identity (its keys are nodup, so
the submitted plan enumerates one record per duplicated identity), and no
error or warning is produced (the hypothesis exhibits the successful
load). -/
theorem c10_loader_keeps_last (rs : List Rec) (c : Coll)
    (h : get_new rs = some c) :
    (∀ i, dictFind? c i =
      rs.reverse.find? (fun r => decide (dict_hash r = some i))) ∧
    (c.map Prod.fst).Nodup := by
  have h' : records_to_coll rs = some c := h
  constructor
  · intro i
    rw [records_to_coll_eq h', dictFind?_collStep_foldl]
    have hnil : dictFind? ([] : Coll) i = none := rfl
    rw [hnil, Option.or_none]
  · rw [records_to_coll_eq h']
    exact nodupKeys_collStep_foldl rs [] (by simp)

/-- Witness for C10 at the duplicated document. -/
theorem c10_loader_keeps_last_witness :
    dictFind? [(id_dup, rec_dup_b)] id_dup =
      [rec_dup_a, rec_dup_b].reverse.find?
        (fun r => decide (dict_hash r = some id_dup)) ∧
    ([(id_dup, rec_dup_b)].map Prod.fst).Nodup :=
  ⟨(c10_loader_keeps_last [rec_dup_a, rec_dup_b] [(id_dup, rec_dup_b)]
      (by decide)).1 id_dup,
   (c10_loader_keeps_last [rec_dup_a, rec_dup_b] [(id_dup, rec_dup_b)]
      (by decide)).2⟩

/-- C8: round-trip stability.  Take any fetched record list `rs` (the
`get_records` output), its collection `current`, and export it
(`sorted(records, key=dict_hash)`); loading the exported document
unmodified as the desired set yields a collection `new` whose diff
against `current` is empty in both directions. -/
theorem c8_round_trip (rs exported : List Rec) (current new : Coll)
    (h1 : records_to_coll rs = some current)
    (h2 : do_export rs = some exported)
    (h3 : get_new exported = some new) :
    remove_unused_records current new = ([], false) ∧
    add_new_records current new = ([], false) := by
  have h3' : records_to_coll exported = some new := h3
  have hperm : exported.Perm rs := by
    unfold do_export at h2
    by_cases hall : rs.all (fun r => (dict_hash r).isSome) = true
    · rw [if_pos hall] at h2
      rw [← Option.some_injective _ h2]
      exact List.perm_insertionSort _ rs
    · rw [if_neg hall] at h2
      cases h2
  have hcur : ∀ p ∈ current, hasKey new p.1 = true := by
    intro p hp
    rcases mem_records_to_coll h1 hp with ⟨r, hr, hhash⟩
    exact (hasKey_records_to_coll h3' p.1).mpr ⟨r, hperm.mem_iff.mpr hr, hhash⟩
  have hnew : ∀ p ∈ new, hasKey current p.1 = true := by
    intro p hp
    rcases mem_records_to_coll h3' hp with ⟨r, hr, hhash⟩
    exact (hasKey_records_to_coll h1 p.1).mpr ⟨r, hperm.mem_iff.mp hr, hhash⟩
  constructor
  · rw [remove_unused_records_eq]
    have : (current.filter fun p => !hasKey new p.1) = [] := by
      rw [List.filter_eq_nil_iff]
      intro p hp
      simp [hcur p hp]
    rw [this]
    rfl
  · rw [add_new_records_eq]
    have : (new.filter fun p => !hasKey current p.1) = [] := by
      rw [List.filter_eq_nil_iff]
      intro p hp
      simp [hnew p hp]
    rw [this]
    rfl

/-- Witness for C8 on a one-record current set. -/
theorem c8_round_trip_witness :
    remove_unused_records [(id_dup, rec_dup_a)] [(id_dup, rec_dup_a)] =
      ([], false) ∧
    add_new_records [(id_dup, rec_dup_a)] [(id_dup, rec_dup_a)] =
      ([], false) :=
  c8_round_trip [rec_dup_a] [rec_dup_a] [(id_dup, rec_dup_a)]
    [(id_dup, rec_dup_a)] (by decide) (by decide) (by decide)

/-- C3 counterexample: a run that submits (one removal, two additions,
dryRun false) with the desired collection in document order
`[rec_beta, rec_alpha]`.  The payload enumerates `rec_beta`'s fields with
index 1 and `rec_alpha`'s with index 2 — the document (insertion) order —
although `id_alpha` sorts strictly before `id_beta`; the payload built
from the identity-sorted order is a different dictionary.  This refutes
"the records appear in the payload in a stable order sorted by
identity". -/
theorem c3_counterexample :
    (do_import false "example" "com" [(id_www, rec_www)]
        [(id_beta, rec_beta), (id_alpha, rec_alpha)]).submission =
      some (base_data "example" "com" ++ plan_entries [rec_beta, rec_alpha]) ∧
    Identity.leb id_alpha id_beta = true ∧
    id_alpha ≠ id_beta ∧
    base_data "example" "com" ++ plan_entries [rec_beta, rec_alpha] ≠
      base_data "example" "com" ++ plan_entries [rec_alpha, rec_beta] := by
  decide

/-- C3 amended: whenever a plan is submitted, the payload enumerates every
record of the desired collection — indexed 1, 2, … in the collection's
insertion (document) order, not sorted by identity — after the three base
entries; the freshness hypothesis (all payload keys distinct) states that
the indexed field names do not collide. -/
theorem c3_amended_plan_in_document_order (sld tld : String)
    (current new : Coll)
    (hrm : (remove_unused_records current new).2 = true)
    (hadd : (add_new_records current new).2 = true)
    (hfresh : ((base_data sld tld ++
        plan_entries (new.map fun p => p.2)).map Prod.fst).Nodup) :
    (do_import false sld tld current new).submission =
      some (base_data sld tld ++ plan_entries (new.map fun p => p.2)) := by
  simp only [do_import]
  rw [hrm, hadd]
  rw [if_neg (by simp)]
  unfold build_data
  rw [foldl_dictInsert_append _ _ hfresh]
  rfl

/-- Witness for the amended C3. -/
theorem c3_amended_plan_in_document_order_witness :
    (do_import false "example" "com" [(id_www, rec_www)]
        [(id_beta, rec_beta), (id_alpha, rec_alpha)]).submission =
      some (base_data "example" "com" ++
        plan_entries ([(id_beta, rec_beta),
          (id_alpha, rec_alpha)].map fun p => p.2)) :=
  c3_amended_plan_in_document_order "example" "com" [(id_www, rec_www)]
    [(id_beta, rec_beta), (id_alpha, rec_alpha)]
    (by decide) (by decide) (by decide)

/-- C4 counterexample: for desired-state records the claim fails — the
loader applies no TTL elision at all (only `get_records` does), so the
desired record `rec_ttl1800` (ttl = 1800) canonicalizes to a different
identity than the otherwise-identical record `rec_www` with no ttl
field. -/
theorem c4_counterexample :
    dict_hash rec_ttl1800 ≠ dict_hash rec_www ∧
    (dict_hash rec_ttl1800).isSome ∧ (dict_hash rec_www).isSome := by
  decide

/-- C4 amended: TTL elision happens only during provider-side
normalization.  A fetched record whose `TTL` is the string `"1800"` is
normalized with its `TTL` field dropped (so its identity equals that of
the otherwise-identical desired record without ttl, e.g. `prov_1800` vs
`rec_www`), while any other TTL value, e.g. `"3600"`, is kept and
participates in the identity; a desired-state record with `ttl = 1800`
keeps the field and canonicalizes to a different identity than the no-ttl
record. -/
theorem c4_amended_ttl_elision :
    (∀ h r, normalize_record h = some r →
        dictFind? h "TTL" = some (Val.vstr "1800") →
        dictFind? r "TTL" = none) ∧
    (∀ h r v, normalize_record h = some r →
        dictFind? h "TTL" = some v → v ≠ Val.vstr "1800" →
        dictFind? r "TTL" = some v) ∧
    get_records [prov_1800] = some [norm_www] ∧
    dict_hash norm_www = dict_hash rec_www ∧
    get_records [prov_3600] = some [norm_3600] ∧
    dict_hash norm_3600 ≠ dict_hash rec_www ∧
    dict_hash rec_ttl1800 ≠ dict_hash rec_www := by
  refine ⟨?_, ?_, by decide, by decide, by decide, by decide, by decide⟩
  · intro h r hn httl
    unfold normalize_record at hn
    simp only [Option.bind_eq_bind, Option.bind_eq_some] at hn
    obtain ⟨name, hname, rtype, hrtype, ttl, httl', hn⟩ := hn
    by_cases hmx : rtype ≠ Val.vstr "MX"
    · simp only [if_pos hmx, dictFind?_insert, dictFind?_pop] at httl'
      rw [httl] at httl'
      injection httl' with httl'
      rw [if_pos httl'.symm] at hn
      injection hn with hn
      rw [← hn]
      simp [dictFind?_pop]
    · simp only [if_neg hmx, dictFind?_insert, dictFind?_pop] at httl'
      rw [httl] at httl'
      injection httl' with httl'
      rw [if_pos httl'.symm] at hn
      injection hn with hn
      rw [← hn]
      simp [dictFind?_pop]
  · intro h r v hn httl hv
    unfold normalize_record at hn
    simp only [Option.bind_eq_bind, Option.bind_eq_some] at hn
    obtain ⟨name, hname, rtype, hrtype, ttl, httl', hn⟩ := hn
    by_cases hmx : rtype ≠ Val.vstr "MX"
    · simp only [if_pos hmx, dictFind?_insert, dictFind?_pop] at httl'
      rw [httl] at httl'
      injection httl' with httl'
      rw [if_neg (httl' ▸ hv)] at hn
      injection hn with hn
      rw [← hn]
      simp only [if_pos hmx, dictFind?_insert, dictFind?_pop]
      simp [httl]
    · simp only [if_neg hmx, dictFind?_insert, dictFind?_pop] at httl'
      rw [httl] at httl'
      injection httl' with httl'
      rw [if_neg (httl' ▸ hv)] at hn
      injection hn with hn
      rw [← hn]
      simp only [if_neg hmx, dictFind?_insert, dictFind?_pop]
      simp [httl]

/-- Witness for the amended C4 at the two provider records. -/
theorem c4_amended_ttl_elision_witness :
    dictFind? norm_www "TTL" = none ∧
    dictFind? norm_3600 "TTL" = some (Val.vstr "3600") :=
  ⟨c4_amended_ttl_elision.1 prov_1800 norm_www (by decide) (by decide),
   c4_amended_ttl_elision.2.1 prov_3600 norm_3600 (Val.vstr "3600")
     (by decide) (by decide) (by decide)⟩

/-- C5 counterexample: for desired-state records the claim fails — the
loader strips nothing, so the non-MX desired record `rec_stray` carrying a
stray `MXPref` field canonicalizes to a different identity than the same
record without it. -/
theorem c5_counterexample :
    dict_hash rec_stray ≠ dict_hash rec_www ∧
    (dict_hash rec_stray).isSome ∧ (dict_hash rec_www).isSome := by
  decide

/-- C5 amended: the MX-pref conditional applies only during provider-side
normalization.  For a fetched record whose `Type` is not `"MX"`,
normalizing it gives the very same result as normalizing the record with
its stray `MXPref` removed — hence the same canonical identity; for MX
records the `MXPref` value survives normalization unchanged and
participates in the identity (`norm_mx10` vs `norm_mx20`); a desired-state
non-MX record with a stray `mxPref` canonicalizes to a different identity
than the record without it. -/
theorem c5_amended_mxpref_conditional :
    (∀ h t, dictFind? h "Type" = some t → t ≠ Val.vstr "MX" →
        normalize_record h = normalize_record (dictPop h "MXPref")) ∧
    (∀ h r, normalize_record h = some r →
        dictFind? h "Type" = some (Val.vstr "MX") →
        dictFind? r "MXPref" = dictFind? h "MXPref") ∧
    get_records [prov_mx10] = some [norm_mx10] ∧
    get_records [prov_mx20] = some [norm_mx20] ∧
    dict_hash norm_mx10 ≠ dict_hash norm_mx20 ∧
    dict_hash rec_stray ≠ dict_hash rec_www := by
  refine ⟨?_, ?_, by decide, by decide, by decide, by decide⟩
  · intro h t hty hmx
    unfold normalize_record
    simp only [Option.bind_eq_bind]
    simp [dictFind?_pop, dictFind?_insert]
    cases hname : dictFind? h "Name" with
    | none => rfl
    | some name =>
      simp only [Option.some_bind']
      rw [hty]
      simp only [Option.some_bind']
      simp only [if_neg hmx]
      have hfloat :
          dictPop
            (dictPop
              (dictInsert
                (dictPop
                  (dictPop
                    (dictPop (dictPop (dictPop h "MXPref") "AssociatedAppTitle")
                      "FriendlyName")
                    "HostId")
                  "Name")
                "HostName" name)
              "IsActive")
            "IsDDNSEnabled" =
          dictPop
            (dictPop
              (dictPop
                (dictInsert
                  (dictPop
                    (dictPop
                      (dictPop (dictPop h "AssociatedAppTitle") "FriendlyName")
                      "HostId")
                    "Name")
                  "HostName" name)
                "IsActive")
              "IsDDNSEnabled")
            "MXPref" := by
        rw [dictPop_comm h "MXPref" "AssociatedAppTitle",
            dictPop_comm (dictPop h "AssociatedAppTitle") "MXPref" "FriendlyName",
            dictPop_comm (dictPop (dictPop h "AssociatedAppTitle") "FriendlyName")
              "MXPref" "HostId",
            dictPop_comm
              (dictPop (dictPop (dictPop h "AssociatedAppTitle") "FriendlyName")
                "HostId")
              "MXPref" "Name",
            ← dictPop_dictInsert_ne _ name
              (by decide : ¬ ("MXPref" : String) = "HostName"),
            dictPop_comm _ "MXPref" "IsActive",
            dictPop_comm _ "MXPref" "IsDDNSEnabled"]
      simp only [hfloat, dictPop_idem]
  · intro h r hn hty
    unfold normalize_record at hn
    simp only [Option.bind_eq_bind, Option.bind_eq_some] at hn
    obtain ⟨name, hname, rtype, hrtype, ttl, httl, hn⟩ := hn
    simp [dictFind?_pop, dictFind?_insert] at hrtype
    rw [hty] at hrtype
    injection hrtype with hrtype
    rw [← hrtype] at httl hn
    simp only [ne_eq, not_true_eq_false, if_false, ite_false] at httl hn
    by_cases h1800 : ttl = Val.vstr "1800"
    · rw [if_pos h1800] at hn
      injection hn with hn
      rw [← hn]
      simp [dictFind?_pop, dictFind?_insert]
    · rw [if_neg h1800] at hn
      injection hn with hn
      rw [← hn]
      simp [dictFind?_pop, dictFind?_insert]

/-- Witness for the amended C5 at concrete provider records. -/
theorem c5_amended_mxpref_conditional_witness :
    normalize_record prov_stray =
      normalize_record (dictPop prov_stray "MXPref") ∧
    dictFind? norm_mx10 "MXPref" = dictFind? prov_mx10 "MXPref" :=
  ⟨c5_amended_mxpref_conditional.1 prov_stray (Val.vstr "A")
     (by decide) (by decide),
   c5_amended_mxpref_conditional.2.1 prov_mx10 norm_mx10
     (by decide) (by decide)⟩

/-- Witness for C7 at a concrete collection. -/
theorem c7_noop_idempotence_witness :
    remove_unused_records [(id_www, rec_www)] [(id_www, rec_www)] = ([], false) ∧
    add_new_records [(id_www, rec_www)] [(id_www, rec_www)] = ([], false) ∧
    (do_import false "example" "com" [(id_www, rec_www)]
      [(id_www, rec_www)]).submission = none :=
  c7_noop_idempotence [(id_www, rec_www)] [(id_www, rec_www)]
    [(id_www, rec_www)] false "example" "com" (fun _ => rfl)

end NamecheapDNS
